import Mathlib

set_option linter.unusedSectionVars false

/-
Shallow embedding of `src/Bank.cpp` (mini bank, no overdraft).

Modelling choices:
* C++ `double` amounts are modelled by an arbitrary linearly ordered abelian
  group `α` (with decidable equality); the program only uses `+`, `-`, `0`
  and comparisons on amounts, so every theorem below holds in particular for
  the idealised reading `α = ℚ`.  Concrete evaluations instantiate `α = ℤ`.
* The `when` (wall-clock timestamp) field of `Tx` is omitted: no operation of
  the program ever reads it.
* `std::unordered_map<int, unique_ptr<Account>>` is modelled as an
  association list `List (Int × Account α)`; `operator[]` insertion and
  in-place mutation of a found account are `updateA`, `find` is `lookupA`.
* C++ exceptions do not roll back mutations already applied to the `Bank`
  object: every `Bank` operation therefore returns the bank state as it is
  when the call returns or throws, together with the error (if any).
* `Account::print`, `Bank::list` and `main` are console I/O and are not
  embedded; `Checking` adds no behaviour over `Account` and is inlined.
-/

namespace MiniBank

/-- Embeds `enum class TxType`. -/
inductive TxType where
  | Deposit
  | Withdraw
  | TransferIn
  | TransferOut
deriving DecidableEq, Repr

/-- Embeds `struct Tx` (without the unread `when` timestamp). -/
structure Tx (α : Type) where
  acc : Int
  type : TxType
  amt : α
  note : String
deriving DecidableEq, Repr

/-- Embeds the exception hierarchy `BankError` / `NotFound` / `Insufficient`;
the payload is the `what()` message. -/
inductive Err where
  | bankError (msg : String)
  | notFound (msg : String)
  | insufficient (msg : String)
deriving DecidableEq, Repr

/-- Embeds `exception::what()`. -/
def Err.what : Err → String
  | .bankError m => m
  | .notFound m => m
  | .insufficient m => m

/-- Embeds `struct Account` (state part). -/
structure Account (α : Type) where
  id : Int
  owner : String
  bal : α
  hist : List (Tx α)
deriving DecidableEq, Repr

variable {α : Type} [LinearOrderedAddCommGroup α]

/-- Embeds the `Account(int, string, double)` constructor (also used by
`Checking`): note that a negative `init` is stored unchecked. -/
def Account.create (i : Int) (o : String) (init : α) : Account α :=
  { id := i, owner := o, bal := init,
    hist := if 0 < init then [⟨i, .Deposit, init, "initial"⟩] else [] }

/-- Embeds `Account::deposit`. -/
def Account.deposit (a : Account α) (v : α) (note : String) :
    Except Err (Account α) :=
  if v ≤ 0 then .error (.bankError "deposit>0")
  else .ok { a with bal := a.bal + v, hist := a.hist ++ [⟨a.id, .Deposit, v, note⟩] }

/-- Embeds `Account::withdraw`. -/
def Account.withdraw (a : Account α) (v : α) (note : String) :
    Except Err (Account α) :=
  if v ≤ 0 then .error (.bankError "withdraw>0")
  else if a.bal < v then .error (.insufficient "insufficient")
  else .ok { a with bal := a.bal - v, hist := a.hist ++ [⟨a.id, .Withdraw, v, note⟩] }

/-- Association-list lookup, embedding `unordered_map::find`. -/
def lookupA : List (Int × Account α) → Int → Option (Account α)
  | [], _ => none
  | (k, acct) :: rest, i => if k = i then some acct else lookupA rest i

/-- Association-list update, embedding both `unordered_map::operator[] =`
(insertion of a fresh key) and in-place mutation of a found account. -/
def updateA : List (Int × Account α) → Int → Account α → List (Int × Account α)
  | [], i, acct => [(i, acct)]
  | (k, a0) :: rest, i, acct =>
      if k = i then (k, acct) :: rest else (k, a0) :: updateA rest i acct

/-- Embeds `struct Bank` (state part). -/
structure Bank (α : Type) where
  a : List (Int × Account α)
  log : List (Tx α)
  next : Int
deriving DecidableEq, Repr

/-- A default-constructed `Bank` (as in `main`). -/
def Bank.empty : Bank α := { a := [], log := [], next := 1 }

/-- Embeds `Bank::createChecking`: note that a negative `init` is accepted
unchecked (only `init > 0` is logged, mirroring the two `if (init > 0)`). -/
def Bank.createChecking (b : Bank α) (owner : String) (init : α) :
    Int × Bank α :=
  let id := b.next
  (id, { b with
      next := b.next + 1,
      a := updateA b.a id (Account.create id owner init),
      log := if 0 < init then b.log ++ [⟨id, .Deposit, init, "initial"⟩]
             else b.log })

/-- Embeds `Bank::deposit`.  The returned bank is the object state at the
moment the call returns or throws. -/
def Bank.deposit (b : Bank α) (id : Int) (v : α) (note : String) :
    Bank α × Option Err :=
  match lookupA b.a id with
  | none => (b, some (.notFound "no account"))
  | some acct =>
    match acct.deposit v note with
    | .error e => (b, some e)
    | .ok new =>
        ({ b with a := updateA b.a id new,
                  log := b.log ++ [⟨id, .Deposit, v, note⟩] }, none)

/-- Embeds `Bank::withdraw`. -/
def Bank.withdraw (b : Bank α) (id : Int) (v : α) (note : String) :
    Bank α × Option Err :=
  match lookupA b.a id with
  | none => (b, some (.notFound "no account"))
  | some acct =>
    match acct.withdraw v note with
    | .error e => (b, some e)
    | .ok new =>
        ({ b with a := updateA b.a id new,
                  log := b.log ++ [⟨id, .Withdraw, v, note⟩] }, none)

/-- Embeds `Bank::transfer` (`src`/`dst` stand for the C++ parameters
`from`/`to`; `from` is a Lean keyword).  Faithful to the source: the
withdrawal from `src` is applied before `acc(to)` is looked up, so when `dst`
is absent the returned bank carries the already-applied withdrawal. -/
def Bank.transfer (b : Bank α) (src dst : Int) (v : α) (note : String) :
    Bank α × Option Err :=
  if src = dst then (b, some (.bankError "same account"))
  else
    match lookupA b.a src with
    | none => (b, some (.notFound "no account"))
    | some af =>
      match af.withdraw v
          ("to " ++ toString dst ++ (if note ≠ "" then ": " ++ note else "")) with
      | .error e => (b, some e)
      | .ok af2 =>
        match lookupA (updateA b.a src af2) dst with
        | none => ({ b with a := updateA b.a src af2 }, some (.notFound "no account"))
        | some ad =>
          match ad.deposit v
              ("from " ++ toString src ++ (if note ≠ "" then ": " ++ note else "")) with
          | .error e => ({ b with a := updateA b.a src af2 }, some e)
          | .ok ad2 =>
              ({ b with
                   a := updateA (updateA b.a src af2) dst ad2,
                   log := b.log ++
                     [⟨src, .TransferOut, v, "to " ++ toString dst⟩,
                      ⟨dst, .TransferIn, v, "from " ++ toString src⟩] }, none)

/-- The fall-through single-entry branch of `Bank::undo` (`// single undo`):
`last` is `log.back()`, `rest` is the reversal of the remaining entries, so
`pop_back` leaves `rest.reverse`. -/
def Bank.undoLast (b : Bank α) (last : Tx α) (rest : List (Tx α)) :
    Bank α × Option String :=
  match lookupA b.a last.acc with
  | none => (b, some "no account")
  | some acct =>
    if last.type = .Deposit ∨ last.type = .TransferIn then
      match acct.withdraw last.amt "undo" with
      | .error e => (b, some e.what)
      | .ok new =>
          ({ b with a := updateA b.a last.acc new, log := rest.reverse }, none)
    else
      match acct.deposit last.amt "undo" with
      | .error e => (b, some e.what)
      | .ok new =>
          ({ b with a := updateA b.a last.acc new, log := rest.reverse }, none)

/-- The transfer-pair branch of `Bank::undo`: `last` is the TransferIn,
`prev` the TransferOut, `rest2` the reversal of the entries below them.
Faithful to the source: if the withdrawal's mutation was applied and the
deposit then throws, the caught exception leaves it applied. -/
def Bank.undoPair (b : Bank α) (last prev : Tx α) (rest2 : List (Tx α)) :
    Bank α × Option String :=
  match lookupA b.a last.acc with
  | none => (b, some "no account")
  | some accIn =>
    match accIn.withdraw last.amt "undo transfer" with
    | .error e => (b, some e.what)
    | .ok accIn2 =>
      match lookupA (updateA b.a last.acc accIn2) prev.acc with
      | none => ({ b with a := updateA b.a last.acc accIn2 }, some "no account")
      | some accOut =>
        match accOut.deposit last.amt "undo transfer" with
        | .error e => ({ b with a := updateA b.a last.acc accIn2 }, some e.what)
        | .ok accOut2 =>
            ({ b with
                 a := updateA (updateA b.a last.acc accIn2) prev.acc accOut2,
                 log := rest2.reverse }, none)

/-- Embeds `Bank::undo`.  The second component is `none` on success
(`return true`) and `some err` on failure (`return false` with the message
written to `err`).  `log.back()` and `log[log.size()-2]` are read off
`log.reverse`; `pop_back` is dropping from the front of the reversal. -/
def Bank.undo (b : Bank α) : Bank α × Option String :=
  match b.log.reverse with
  | [] => (b, some "nothing to undo")
  | [last] => b.undoLast last []
  | last :: prev :: rest2 =>
    if last.type = .TransferIn ∧ prev.type = .TransferOut ∧ prev.amt = last.amt then
      b.undoPair last prev rest2
    else b.undoLast last (prev :: rest2)

/-- One user-visible operation of the interactive loop in `main`. -/
inductive Op (α : Type) where
  | create (owner : String) (init : α)
  | deposit (id : Int) (v : α) (note : String)
  | withdraw (id : Int) (v : α) (note : String)
  | transfer (src dst : Int) (v : α) (note : String)
  | undo

/-- Embeds one iteration of the menu loop in `main`: any exception is caught
there and the (possibly mutated) bank is kept. -/
def Bank.applyOp (b : Bank α) : Op α → Bank α
  | .create o i => (b.createChecking o i).2
  | .deposit id v n => (b.deposit id v n).1
  | .withdraw id v n => (b.withdraw id v n).1
  | .transfer s d v n => (b.transfer s d v n).1
  | .undo => b.undo.1

/-- Bank states reachable from a fresh `Bank` by menu operations. -/
inductive Reachable : Bank α → Prop where
  | empty : Reachable Bank.empty
  | step (op : Op α) {b : Bank α} : Reachable b → Reachable (b.applyOp op)

/-- An operation whose `createAccount` initial balance (if any) is
non-negative, as required by the spec's interface table. -/
def Op.createNonNeg : Op α → Prop
  | .create _ init => 0 ≤ init
  | _ => True

/-- Bank states reachable using only non-negative initial balances. -/
inductive ReachableNonNeg : Bank α → Prop where
  | empty : ReachableNonNeg Bank.empty
  | step (op : Op α) {b : Bank α} (hop : op.createNonNeg) :
      ReachableNonNeg b → ReachableNonNeg (b.applyOp op)

/-- Signed sum of a history: amounts of Deposit/TransferIn entries added,
amounts of Withdraw/TransferOut entries subtracted. -/
def signedSum : List (Tx α) → α
  | [] => 0
  | t :: rest =>
      (match t.type with
       | .Deposit | .TransferIn => t.amt
       | .Withdraw | .TransferOut => -t.amt) + signedSum rest

/-- The spec's per-account invariant: non-negative balance equal to the
signed sum of the account's own history. -/
def Account.ok (a : Account α) : Prop := 0 ≤ a.bal ∧ a.bal = signedSum a.hist

/-- All accounts of a bank satisfy the per-account invariant. -/
def Bank.accountsOk (b : Bank α) : Prop :=
  ∀ id acct, lookupA b.a id = some acct → acct.ok

/-- The global-log invariant: every logged entry has a strictly positive
amount and names an account present in the account map. -/
def Bank.logOk (b : Bank α) : Prop :=
  ∀ tx ∈ b.log, 0 < tx.amt ∧ (lookupA b.a tx.acc).isSome = true

/-- The tail-of-log test of `Bank::undo`: last entry TransferIn, previous
entry TransferOut, equal amounts. -/
def transferPairTail [DecidableEq α] (log : List (Tx α)) : Bool :=
  match log.reverse with
  | last :: prev :: _ =>
      decide (last.type = TxType.TransferIn) &&
      decide (prev.type = TxType.TransferOut) &&
      decide (prev.amt = last.amt)
  | _ => false

/-- The single-entry compensating update performed by the non-pair branch of
`Bank::undo` on the affected account. -/
def undoSingle (tx : Tx α) (acct : Account α) : Account α :=
  if tx.type = .Deposit ∨ tx.type = .TransferIn then
    { acct with bal := acct.bal - tx.amt,
                hist := acct.hist ++ [⟨acct.id, .Withdraw, tx.amt, "undo"⟩] }
  else
    { acct with bal := acct.bal + tx.amt,
                hist := acct.hist ++ [⟨acct.id, .Deposit, tx.amt, "undo"⟩] }

/-- Total number of per-account history entries across the bank. -/
def Bank.histCount (b : Bank α) : Nat :=
  (b.a.map fun p => p.2.hist.length).sum

/-- Per-account histories of `m` are all present in `n` with (possibly
empty) appended suffixes: histories only grow. -/
def histExtends (m n : List (Int × Account α)) : Prop :=
  ∀ id acct, lookupA m id = some acct →
    ∃ acct2, lookupA n id = some acct2 ∧ ∃ t, acct2.hist = acct.hist ++ t

/-! ### Association-list laws -/

theorem lookupA_updateA (m : List (Int × Account α)) (i j : Int) (acct : Account α) :
    lookupA (updateA m i acct) j = if i = j then some acct else lookupA m j := by
  induction m with
  | nil =>
    by_cases h : i = j <;> simp [updateA, lookupA, h]
  | cons p rest ih =>
    obtain ⟨k, a0⟩ := p
    by_cases hk : k = i
    · subst hk
      by_cases h : k = j <;> simp [updateA, lookupA, h]
    · by_cases h : k = j
      · subst h
        simp [updateA, lookupA, hk, Ne.symm hk]
      · simp [updateA, lookupA, hk, h, ih]

theorem isSome_lookupA_updateA (m : List (Int × Account α)) (i j : Int)
    (acct : Account α) (h : (lookupA m j).isSome = true) :
    (lookupA (updateA m i acct) j).isSome = true := by
  rw [lookupA_updateA]
  split <;> simp [h]

/-! ### Signed sums -/

theorem signedSum_append (l1 l2 : List (Tx α)) :
    signedSum (l1 ++ l2) = signedSum l1 + signedSum l2 := by
  induction l1 with
  | nil => simp [signedSum]
  | cons t rest ih => simp [signedSum, ih, add_assoc]

/-! ### Account-operation inversions and invariant preservation -/

theorem Account.deposit_eq_ok {a a2 : Account α} {v : α} {note : String} :
    a.deposit v note = .ok a2 ↔
      ¬ v ≤ 0 ∧
      a2 = { a with bal := a.bal + v,
                    hist := a.hist ++ [⟨a.id, .Deposit, v, note⟩] } := by
  unfold Account.deposit
  split
  · simp_all
  · simp_all [eq_comm]

theorem Account.withdraw_eq_ok {a a2 : Account α} {v : α} {note : String} :
    a.withdraw v note = .ok a2 ↔
      ¬ v ≤ 0 ∧ ¬ a.bal < v ∧
      a2 = { a with bal := a.bal - v,
                    hist := a.hist ++ [⟨a.id, .Withdraw, v, note⟩] } := by
  unfold Account.withdraw
  split
  · simp_all
  · split
    · simp_all
    · simp_all [eq_comm]

theorem Account.ok_create {i : Int} {o : String} {init : α} (h : 0 ≤ init) :
    (Account.create i o init).ok := by
  unfold Account.create Account.ok
  by_cases hpos : 0 < init
  · simp [hpos, signedSum, h]
  · have : init = 0 := le_antisymm (not_lt.mp hpos) h
    simp [hpos, signedSum, this]

theorem Account.ok_deposit {a a2 : Account α} {v : α} {note : String}
    (hok : a.ok) (h : a.deposit v note = .ok a2) : a2.ok := by
  rw [Account.deposit_eq_ok] at h
  obtain ⟨hv, rfl⟩ := h
  obtain ⟨hb, hs⟩ := hok
  refine ⟨add_nonneg hb (not_le.mp hv).le, ?_⟩
  simp [signedSum_append, signedSum, hs]

theorem Account.ok_withdraw {a a2 : Account α} {v : α} {note : String}
    (hok : a.ok) (h : a.withdraw v note = .ok a2) : a2.ok := by
  rw [Account.withdraw_eq_ok] at h
  obtain ⟨hv, hb2, rfl⟩ := h
  obtain ⟨hb, hs⟩ := hok
  constructor
  · exact sub_nonneg.mpr (not_lt.mp hb2)
  · simp [signedSum_append, signedSum, hs, sub_eq_add_neg]

/-! ### Preservation of the global-log invariant -/

theorem logOk_mono {b b2 : Bank α} (h : b.logOk)
    (hsub : ∀ tx ∈ b2.log, tx ∈ b.log)
    (hacc : ∀ j, (lookupA b.a j).isSome = true → (lookupA b2.a j).isSome = true) :
    b2.logOk := by
  intro tx htx
  obtain ⟨h1, h2⟩ := h tx (hsub tx htx)
  exact ⟨h1, hacc _ h2⟩

theorem Bank.logOk_createChecking {b b2 : Bank α} {o : String} {init : α} {id : Int}
    (hres : b.createChecking o init = (id, b2)) (h : b.logOk) : b2.logOk := by
  unfold Bank.createChecking at hres
  cases hres
  intro tx htx
  simp only at htx ⊢
  by_cases hpos : 0 < init
  · rw [if_pos hpos] at htx
    rcases List.mem_append.mp htx with htx | htx
    · obtain ⟨h1, h2⟩ := h tx htx
      exact ⟨h1, isSome_lookupA_updateA _ _ _ _ h2⟩
    · rw [List.mem_singleton] at htx
      subst htx
      refine ⟨hpos, ?_⟩
      rw [lookupA_updateA]
      simp
  · rw [if_neg hpos] at htx
    obtain ⟨h1, h2⟩ := h tx htx
    exact ⟨h1, isSome_lookupA_updateA _ _ _ _ h2⟩

theorem Bank.logOk_deposit {b b2 : Bank α} {id : Int} {v : α} {note : String}
    {err : Option Err} (hres : b.deposit id v note = (b2, err))
    (h : b.logOk) : b2.logOk := by
  unfold Bank.deposit at hres
  split at hres
  · cases hres; exact h
  · rename_i acct hl
    split at hres
    · cases hres; exact h
    · rename_i acct2 hd
      cases hres
      intro tx htx
      simp only at htx ⊢
      rcases List.mem_append.mp htx with htx | htx
      · obtain ⟨h1, h2⟩ := h tx htx
        exact ⟨h1, isSome_lookupA_updateA _ _ _ _ h2⟩
      · rw [List.mem_singleton] at htx
        subst htx
        refine ⟨not_le.mp (Account.deposit_eq_ok.mp hd).1, ?_⟩
        exact isSome_lookupA_updateA _ _ _ _ (by simp [hl])

theorem Bank.logOk_withdraw {b b2 : Bank α} {id : Int} {v : α} {note : String}
    {err : Option Err} (hres : b.withdraw id v note = (b2, err))
    (h : b.logOk) : b2.logOk := by
  unfold Bank.withdraw at hres
  split at hres
  · cases hres; exact h
  · rename_i acct hl
    split at hres
    · cases hres; exact h
    · rename_i acct2 hd
      cases hres
      intro tx htx
      simp only at htx ⊢
      rcases List.mem_append.mp htx with htx | htx
      · obtain ⟨h1, h2⟩ := h tx htx
        exact ⟨h1, isSome_lookupA_updateA _ _ _ _ h2⟩
      · rw [List.mem_singleton] at htx
        subst htx
        refine ⟨not_le.mp (Account.withdraw_eq_ok.mp hd).1, ?_⟩
        exact isSome_lookupA_updateA _ _ _ _ (by simp [hl])

theorem Bank.logOk_transfer {b b2 : Bank α} {src dst : Int} {v : α} {note : String}
    {err : Option Err} (hres : b.transfer src dst v note = (b2, err))
    (h : b.logOk) : b2.logOk := by
  unfold Bank.transfer at hres
  split at hres
  · cases hres; exact h
  · split at hres
    · cases hres; exact h
    · rename_i af hsrc
      split at hres
      · cases hres; exact h
      · rename_i af2 hw
        split at hres
        · cases hres
          exact logOk_mono h (fun tx htx => htx)
            (fun j hj => isSome_lookupA_updateA _ _ _ _ hj)
        · rename_i ad hdst
          split at hres
          · cases hres
            exact logOk_mono h (fun tx htx => htx)
              (fun j hj => isSome_lookupA_updateA _ _ _ _ hj)
          · rename_i ad2 hd
            cases hres
            intro tx htx
            simp only at htx ⊢
            rcases List.mem_append.mp htx with htx | htx
            · obtain ⟨h1, h2⟩ := h tx htx
              exact ⟨h1, isSome_lookupA_updateA _ _ _ _
                (isSome_lookupA_updateA _ _ _ _ h2)⟩
            · have hv : 0 < v := not_le.mp (Account.withdraw_eq_ok.mp hw).1
              rcases List.mem_cons.mp htx with rfl | htx
              · refine ⟨hv, ?_⟩
                exact isSome_lookupA_updateA _ _ _ _
                  (isSome_lookupA_updateA _ _ _ _ (by simp [hsrc]))
              · rw [List.mem_singleton] at htx
                subst htx
                refine ⟨hv, ?_⟩
                exact isSome_lookupA_updateA _ _ _ _ (by simp [hdst])

theorem Bank.logOk_undoLast {b b2 : Bank α} {last : Tx α} {rest : List (Tx α)}
    {err : Option String} (hres : b.undoLast last rest = (b2, err))
    (hsub : ∀ tx ∈ rest, tx ∈ b.log) (h : b.logOk) : b2.logOk := by
  unfold Bank.undoLast at hres
  split at hres
  · cases hres; exact h
  · split at hres
    · split at hres
      · cases hres; exact h
      · cases hres
        refine logOk_mono h ?_ (fun j hj => isSome_lookupA_updateA _ _ _ _ hj)
        intro tx htx
        exact hsub tx (List.mem_reverse.mp htx)
    · split at hres
      · cases hres; exact h
      · cases hres
        refine logOk_mono h ?_ (fun j hj => isSome_lookupA_updateA _ _ _ _ hj)
        intro tx htx
        exact hsub tx (List.mem_reverse.mp htx)

theorem Bank.logOk_undoPair {b b2 : Bank α} {last prev : Tx α} {rest2 : List (Tx α)}
    {err : Option String} (hres : b.undoPair last prev rest2 = (b2, err))
    (hsub : ∀ tx ∈ rest2, tx ∈ b.log) (h : b.logOk) : b2.logOk := by
  unfold Bank.undoPair at hres
  split at hres
  · cases hres; exact h
  · split at hres
    · cases hres; exact h
    · split at hres
      · cases hres
        exact logOk_mono h (fun tx htx => htx)
          (fun j hj => isSome_lookupA_updateA _ _ _ _ hj)
      · split at hres
        · cases hres
          exact logOk_mono h (fun tx htx => htx)
            (fun j hj => isSome_lookupA_updateA _ _ _ _ hj)
        · cases hres
          refine logOk_mono h ?_ (fun j hj => isSome_lookupA_updateA _ _ _ _
            (isSome_lookupA_updateA _ _ _ _ hj))
          intro tx htx
          exact hsub tx (List.mem_reverse.mp htx)

theorem Bank.logOk_undo {b b2 : Bank α} {err : Option String}
    (hres : b.undo = (b2, err)) (h : b.logOk) : b2.logOk := by
  unfold Bank.undo at hres
  split at hres
  · cases hres; exact h
  · exact Bank.logOk_undoLast hres (by intro tx htx; cases htx) h
  · rename_i last prev rest2 hrev
    have hmem : ∀ tx ∈ prev :: rest2, tx ∈ b.log := by
      intro tx htx
      have : tx ∈ b.log.reverse := by
        rw [hrev]
        exact List.mem_cons_of_mem _ htx
      exact List.mem_reverse.mp this
    split at hres
    · exact Bank.logOk_undoPair hres
        (fun tx htx => hmem tx (List.mem_cons_of_mem _ htx)) h
    · exact Bank.logOk_undoLast hres hmem h

theorem Bank.logOk_applyOp (b : Bank α) (op : Op α) (h : b.logOk) :
    (b.applyOp op).logOk := by
  cases op with
  | create o i => exact Bank.logOk_createChecking (b := b) rfl h
  | deposit id v n => exact Bank.logOk_deposit (b := b) rfl h
  | withdraw id v n => exact Bank.logOk_withdraw (b := b) rfl h
  | transfer s d v n => exact Bank.logOk_transfer (b := b) rfl h
  | undo => exact Bank.logOk_undo (b := b) rfl h

theorem Bank.logOk_reachable {b : Bank α} (h : Reachable b) : b.logOk := by
  induction h with
  | empty => intro tx htx; cases htx
  | step op hb ih => exact Bank.logOk_applyOp _ op ih

/-! ### Preservation of the per-account invariant -/

theorem accountsOk_updateA {m : List (Int × Account α)} {i : Int}
    {acct2 : Account α}
    (h : ∀ id acct, lookupA m id = some acct → acct.ok) (h2 : acct2.ok) :
    ∀ id acct, lookupA (updateA m i acct2) id = some acct → acct.ok := by
  intro id acct hl
  rw [lookupA_updateA] at hl
  split at hl
  · injection hl with hl
    subst hl
    exact h2
  · exact h _ _ hl

theorem Bank.accountsOk_createChecking {b b2 : Bank α} {o : String} {init : α}
    {id : Int} (hres : b.createChecking o init = (id, b2)) (hinit : 0 ≤ init)
    (h : b.accountsOk) : b2.accountsOk := by
  unfold Bank.createChecking at hres
  cases hres
  exact accountsOk_updateA h (Account.ok_create hinit)

theorem Bank.accountsOk_deposit {b b2 : Bank α} {id : Int} {v : α}
    {note : String} {err : Option Err} (hres : b.deposit id v note = (b2, err))
    (h : b.accountsOk) : b2.accountsOk := by
  unfold Bank.deposit at hres
  split at hres
  · cases hres; exact h
  · rename_i acct hl
    split at hres
    · cases hres; exact h
    · rename_i acct2 hd
      cases hres
      exact accountsOk_updateA h (Account.ok_deposit (h _ _ hl) hd)

theorem Bank.accountsOk_withdraw {b b2 : Bank α} {id : Int} {v : α}
    {note : String} {err : Option Err} (hres : b.withdraw id v note = (b2, err))
    (h : b.accountsOk) : b2.accountsOk := by
  unfold Bank.withdraw at hres
  split at hres
  · cases hres; exact h
  · rename_i acct hl
    split at hres
    · cases hres; exact h
    · rename_i acct2 hd
      cases hres
      exact accountsOk_updateA h (Account.ok_withdraw (h _ _ hl) hd)

theorem Bank.accountsOk_transfer {b b2 : Bank α} {src dst : Int} {v : α}
    {note : String} {err : Option Err}
    (hres : b.transfer src dst v note = (b2, err))
    (h : b.accountsOk) : b2.accountsOk := by
  unfold Bank.transfer at hres
  split at hres
  · cases hres; exact h
  · split at hres
    · cases hres; exact h
    · rename_i af hsrc
      split at hres
      · cases hres; exact h
      · rename_i af2 hw
        have h1 : ∀ id acct, lookupA (updateA b.a src af2) id = some acct → acct.ok :=
          accountsOk_updateA h (Account.ok_withdraw (h _ _ hsrc) hw)
        split at hres
        · cases hres; exact h1
        · rename_i ad hdst
          split at hres
          · cases hres; exact h1
          · rename_i ad2 hd
            cases hres
            exact accountsOk_updateA h1 (Account.ok_deposit (h1 _ _ hdst) hd)

theorem Bank.accountsOk_undoLast {b b2 : Bank α} {last : Tx α}
    {rest : List (Tx α)} {err : Option String}
    (hres : b.undoLast last rest = (b2, err))
    (h : b.accountsOk) : b2.accountsOk := by
  unfold Bank.undoLast at hres
  split at hres
  · cases hres; exact h
  · rename_i acct hl
    split at hres
    · split at hres
      · cases hres; exact h
      · rename_i new hw
        cases hres
        exact accountsOk_updateA h (Account.ok_withdraw (h _ _ hl) hw)
    · split at hres
      · cases hres; exact h
      · rename_i new hd
        cases hres
        exact accountsOk_updateA h (Account.ok_deposit (h _ _ hl) hd)

theorem Bank.accountsOk_undoPair {b b2 : Bank α} {last prev : Tx α}
    {rest2 : List (Tx α)} {err : Option String}
    (hres : b.undoPair last prev rest2 = (b2, err))
    (h : b.accountsOk) : b2.accountsOk := by
  unfold Bank.undoPair at hres
  split at hres
  · cases hres; exact h
  · rename_i accIn hl
    split at hres
    · cases hres; exact h
    · rename_i accIn2 hw
      have h1 : ∀ id acct, lookupA (updateA b.a last.acc accIn2) id = some acct → acct.ok :=
        accountsOk_updateA h (Account.ok_withdraw (h _ _ hl) hw)
      split at hres
      · cases hres; exact h1
      · rename_i accOut hl2
        split at hres
        · cases hres; exact h1
        · rename_i accOut2 hd
          cases hres
          exact accountsOk_updateA h1 (Account.ok_deposit (h1 _ _ hl2) hd)

theorem Bank.accountsOk_undo {b b2 : Bank α} {err : Option String}
    (hres : b.undo = (b2, err)) (h : b.accountsOk) : b2.accountsOk := by
  unfold Bank.undo at hres
  split at hres
  · cases hres; exact h
  · exact Bank.accountsOk_undoLast hres h
  · split at hres
    · exact Bank.accountsOk_undoPair hres h
    · exact Bank.accountsOk_undoLast hres h

theorem Bank.accountsOk_applyOp (b : Bank α) (op : Op α) (hop : op.createNonNeg)
    (h : b.accountsOk) : (b.applyOp op).accountsOk := by
  cases op with
  | create o i => exact Bank.accountsOk_createChecking (b := b) rfl hop h
  | deposit id v n => exact Bank.accountsOk_deposit (b := b) rfl h
  | withdraw id v n => exact Bank.accountsOk_withdraw (b := b) rfl h
  | transfer s d v n => exact Bank.accountsOk_transfer (b := b) rfl h
  | undo => exact Bank.accountsOk_undo (b := b) rfl h

theorem Bank.accountsOk_reachableNonNeg {b : Bank α} (h : ReachableNonNeg b) :
    b.accountsOk := by
  induction h with
  | empty => intro id acct hl; cases hl
  | step op hop hb ih => exact Bank.accountsOk_applyOp _ op hop ih

/-! ### History-extension and history-count laws -/

theorem histExtends_trans {m n p : List (Int × Account α)}
    (h1 : histExtends m n) (h2 : histExtends n p) : histExtends m p := by
  intro id a0 h
  obtain ⟨a1, hl1, t1, ht1⟩ := h1 id a0 h
  obtain ⟨a2, hl2, t2, ht2⟩ := h2 id a1 hl1
  exact ⟨a2, hl2, t1 ++ t2, by rw [ht2, ht1, List.append_assoc]⟩

theorem histExtends_updateA {m : List (Int × Account α)} {i : Int}
    {acct : Account α} (acct2 : Account α) (hl : lookupA m i = some acct)
    (ht : ∃ t, acct2.hist = acct.hist ++ t) :
    histExtends m (updateA m i acct2) := by
  intro id a0 hl0
  by_cases hij : i = id
  · subst hij
    refine ⟨acct2, by rw [lookupA_updateA, if_pos rfl], ?_⟩
    rw [hl] at hl0
    injection hl0 with h
    subst h
    exact ht
  · exact ⟨a0, by rw [lookupA_updateA, if_neg hij]; exact hl0, [], by simp⟩

theorem sumHist_updateA {m : List (Int × Account α)} {i : Int}
    {acct : Account α} (acct2 : Account α) (hl : lookupA m i = some acct) :
    ((updateA m i acct2).map fun p => p.2.hist.length).sum + acct.hist.length =
    (m.map fun p => p.2.hist.length).sum + acct2.hist.length := by
  induction m with
  | nil => exact absurd hl (by simp [lookupA])
  | cons p rest ih =>
    obtain ⟨k, a0⟩ := p
    by_cases hk : k = i
    · subst hk
      rw [show lookupA ((k, a0) :: rest) k = some a0 from if_pos rfl] at hl
      injection hl with hl
      subst hl
      simp [updateA]
      omega
    · have hl2 : lookupA rest i = some acct := by
        rw [show lookupA ((k, a0) :: rest) i =
          (if k = i then some a0 else lookupA rest i) from rfl, if_neg hk] at hl
        exact hl
      simp [updateA, hk]
      have := ih hl2
      omega

theorem sumHist_updateA_len {m : List (Int × Account α)} {i : Int}
    {acct : Account α} (acct2 : Account α) (hl : lookupA m i = some acct)
    (hlen : acct2.hist.length = acct.hist.length + 1) :
    ((updateA m i acct2).map fun p => p.2.hist.length).sum =
    (m.map fun p => p.2.hist.length).sum + 1 := by
  have := sumHist_updateA (m := m) acct2 hl
  omega

/-! ### Success and frame lemmas for the two undo branches -/

theorem Bank.undoLast_success {b : Bank α} {last : Tx α} {rest : List (Tx α)}
    {acct : Account α}
    (hl : lookupA b.a last.acc = some acct) (hv : 0 < last.amt)
    (hbal : last.type = .Deposit ∨ last.type = .TransferIn →
      last.amt ≤ acct.bal) :
    b.undoLast last rest =
      ({ b with a := updateA b.a last.acc (undoSingle last acct),
                log := rest.reverse }, none) := by
  unfold Bank.undoLast undoSingle
  rw [hl]
  by_cases hk : last.type = .Deposit ∨ last.type = .TransferIn
  · have hw : acct.withdraw last.amt "undo" =
        .ok { acct with
                bal := acct.bal - last.amt,
                hist := acct.hist ++ [⟨acct.id, .Withdraw, last.amt, "undo"⟩] } :=
      Account.withdraw_eq_ok.mpr ⟨not_le.mpr hv, not_lt.mpr (hbal hk), rfl⟩
    simp only [if_pos hk, hw]
  · have hd : acct.deposit last.amt "undo" =
        .ok { acct with
                bal := acct.bal + last.amt,
                hist := acct.hist ++ [⟨acct.id, .Deposit, last.amt, "undo"⟩] } :=
      Account.deposit_eq_ok.mpr ⟨not_le.mpr hv, rfl⟩
    simp only [if_neg hk, hd]

theorem Bank.undoPair_success {b : Bank α} {last prev : Tx α}
    {rest2 : List (Tx α)} {accIn accOut : Account α}
    (hlIn : lookupA b.a last.acc = some accIn)
    (hlOut : lookupA b.a prev.acc = some accOut)
    (hne : last.acc ≠ prev.acc)
    (hv : 0 < last.amt) (hbal : last.amt ≤ accIn.bal) :
    b.undoPair last prev rest2 =
      ({ b with
           a := updateA (updateA b.a last.acc
                  { accIn with
                      bal := accIn.bal - last.amt,
                      hist := accIn.hist ++
                        [⟨accIn.id, .Withdraw, last.amt, "undo transfer"⟩] })
                prev.acc
                  { accOut with
                      bal := accOut.bal + last.amt,
                      hist := accOut.hist ++
                        [⟨accOut.id, .Deposit, last.amt, "undo transfer"⟩] },
           log := rest2.reverse }, none) := by
  unfold Bank.undoPair
  have hw : accIn.withdraw last.amt "undo transfer" =
      .ok { accIn with
              bal := accIn.bal - last.amt,
              hist := accIn.hist ++
                [⟨accIn.id, .Withdraw, last.amt, "undo transfer"⟩] } :=
    Account.withdraw_eq_ok.mpr ⟨not_le.mpr hv, not_lt.mpr hbal, rfl⟩
  have hl2 : lookupA (updateA b.a last.acc
      { accIn with
          bal := accIn.bal - last.amt,
          hist := accIn.hist ++
            [⟨accIn.id, .Withdraw, last.amt, "undo transfer"⟩] }) prev.acc =
      some accOut := by
    rw [lookupA_updateA, if_neg hne]
    exact hlOut
  have hd : accOut.deposit last.amt "undo transfer" =
      .ok { accOut with
              bal := accOut.bal + last.amt,
              hist := accOut.hist ++
                [⟨accOut.id, .Deposit, last.amt, "undo transfer"⟩] } :=
    Account.deposit_eq_ok.mpr ⟨not_le.mpr hv, rfl⟩
  simp only [hlIn, hw, hl2, hd]

theorem Bank.undoLast_frame {b b2 : Bank α} {last : Tx α} {rest : List (Tx α)}
    (hres : b.undoLast last rest = (b2, none)) :
    b2.log = rest.reverse ∧ histExtends b.a b2.a ∧
    b2.histCount = b.histCount + 1 := by
  unfold Bank.undoLast at hres
  split at hres
  · simp at hres
  · rename_i acct hl
    split at hres
    · split at hres
      · simp at hres
      · rename_i new hw
        obtain ⟨hv, hb2, hnew⟩ := Account.withdraw_eq_ok.mp hw
        cases hres
        refine ⟨rfl, histExtends_updateA new hl ⟨_, by rw [hnew]⟩, ?_⟩
        unfold Bank.histCount
        dsimp only
        exact sumHist_updateA_len new hl (by rw [hnew]; simp)
    · split at hres
      · simp at hres
      · rename_i new hd
        obtain ⟨hv, hnew⟩ := Account.deposit_eq_ok.mp hd
        cases hres
        refine ⟨rfl, histExtends_updateA new hl ⟨_, by rw [hnew]⟩, ?_⟩
        unfold Bank.histCount
        dsimp only
        exact sumHist_updateA_len new hl (by rw [hnew]; simp)

theorem Bank.undoPair_frame {b b2 : Bank α} {last prev : Tx α}
    {rest2 : List (Tx α)}
    (hres : b.undoPair last prev rest2 = (b2, none)) :
    b2.log = rest2.reverse ∧ histExtends b.a b2.a ∧
    b2.histCount = b.histCount + 2 := by
  unfold Bank.undoPair at hres
  split at hres
  · simp at hres
  · rename_i accIn hl
    split at hres
    · simp at hres
    · rename_i accIn2 hw
      obtain ⟨hv, hb2, hIn2⟩ := Account.withdraw_eq_ok.mp hw
      split at hres
      · simp at hres
      · rename_i accOut hl2
        split at hres
        · simp at hres
        · rename_i accOut2 hd
          obtain ⟨hv2, hOut2⟩ := Account.deposit_eq_ok.mp hd
          cases hres
          refine ⟨rfl, ?_, ?_⟩
          · exact histExtends_trans
              (histExtends_updateA accIn2 hl ⟨_, by rw [hIn2]⟩)
              (histExtends_updateA accOut2 hl2 ⟨_, by rw [hOut2]⟩)
          · have h1 := sumHist_updateA_len (m := b.a) accIn2 hl
              (by rw [hIn2]; simp)
            have h2 := sumHist_updateA_len (m := updateA b.a last.acc accIn2)
              accOut2 hl2 (by rw [hOut2]; simp)
            unfold Bank.histCount
            dsimp only
            omega

/-! ### Concrete scenario states (over `ℤ`) used in the closed theorems -/

/-- Scenario bank: Alice (id 1) created with 100, then Bob (id 2) with 0. -/
def bankAB : Bank ℤ :=
  (((Bank.empty : Bank ℤ).createChecking "Alice" 100).2.createChecking "Bob" 0).2

/-- `bankAB` after the successful `transfer(1, 2, 40)`. -/
def bankAB40 : Bank ℤ := (bankAB.transfer 1 2 40 "").1

/-- `bankAB40` after the failing `transfer(2, 3, 40)` (destination absent):
account 2 has been silently debited and the log is unchanged, so the log
tail is still the matched transfer pair. -/
def bankAB40bad : Bank ℤ := (bankAB40.transfer 2 3 40 "").1

/-- A bank whose only account (id 1, owner "A") was created with balance 10. -/
def bankA10 : Bank ℤ := ((Bank.empty : Bank ℤ).createChecking "A" 10).2

/-- A bank whose only account (id 1, owner "A") was created with balance 5. -/
def bankA5 : Bank ℤ := ((Bank.empty : Bank ℤ).createChecking "A" 5).2

/-- The bank obtained by `createChecking("X", -5)` on a fresh bank. -/
def bankNeg : Bank ℤ := ((Bank.empty : Bank ℤ).createChecking "X" (-5)).2

/-! ### Claim theorems -/

/-- C1 (failing evaluation): `Bank::transfer` to a missing destination is a
failing call that nevertheless mutates state.  On a bank whose only account
is id 1 with balance 10, `transfer(1, 2, 5)` reports NotFound, yet account 1
has been debited to 5 and a Withdraw entry appended to its history, while
the global log is unchanged — a silent partial application, contradicting
the claim that failing transfers change nothing. -/
theorem transfer_missing_destination_mutates_source :
    (bankA10.transfer 1 2 5 "").2 = some (Err.notFound "no account") ∧
    lookupA (bankA10.transfer 1 2 5 "").1.a 1 =
      some ⟨1, "A", 10 - 5,
        [⟨1, .Deposit, 10, "initial"⟩, ⟨1, .Withdraw, 5, "to 2"⟩]⟩ ∧
    lookupA bankA10.a 1 = some ⟨1, "A", 10, [⟨1, .Deposit, 10, "initial"⟩]⟩ ∧
    (bankA10.transfer 1 2 5 "").1.log = bankA10.log := by
  decide

/-- C2 (failing evaluation): `Bank::createChecking` accepts a negative
initial balance.  On a fresh bank, `createChecking("X", -5)` returns id 1
and creates the account with balance −5; the operation has no failure path
at all, contradicting the claimed `InvalidAmount` failure. -/
theorem createChecking_accepts_negative_init :
    ((Bank.empty : Bank ℤ).createChecking "X" (-5)).1 = 1 ∧
    lookupA ((Bank.empty : Bank ℤ).createChecking "X" (-5)).2.a 1 =
      some ⟨1, "X", -5, []⟩ ∧
    ((-5 : ℤ) < 0) := by
  decide

/-- C3 (counterexample to the claim as stated): `createAccount` with a
negative initial balance is an operation of the program, and after it the
created account has a negative balance that differs from the signed sum of
its (empty) history. -/
theorem balance_invariant_counterexample :
    Reachable bankNeg ∧ ¬ bankNeg.accountsOk := by
  constructor
  · exact Reachable.step (Op.create "X" (-5)) Reachable.empty
  · intro h
    have h2 : (0 : ℤ) ≤ -5 :=
      (h 1 ⟨1, "X", -5, []⟩ (by decide)).1
    exact absurd h2 (by decide)

/-- C3 (amended): after every sequence of operations in which every
createAccount call passes a non-negative initial balance, every account's
balance is non-negative and equals the signed sum of its own history
(Deposit/TransferIn added, Withdraw/TransferOut subtracted). -/
theorem balance_invariant {b : Bank α} (h : ReachableNonNeg b) :
    ∀ id acct, lookupA b.a id = some acct →
      0 ≤ acct.bal ∧ acct.bal = signedSum acct.hist :=
  Bank.accountsOk_reachableNonNeg h

/-- Witness for C3 (amended): account 1 of the state reached by two
creations and a transfer has non-negative balance equal to the signed sum
of its history. -/
theorem balance_invariant_witness :
    (0 : ℤ) ≤ 100 - 40 ∧ (100 - 40 : ℤ) =
      signedSum [⟨1, .Deposit, 100, "initial"⟩, ⟨1, .Withdraw, 40, "to 2"⟩] :=
  balance_invariant
    (ReachableNonNeg.step (Op.transfer 1 2 40 "") trivial
      (ReachableNonNeg.step (Op.create "Bob" 0) (show (0 : ℤ) ≤ 0 by decide)
        (ReachableNonNeg.step (Op.create "Alice" 100)
          (show (0 : ℤ) ≤ 100 by decide) ReachableNonNeg.empty)))
    1
    ⟨1, "Alice", 100 - 40,
      [⟨1, .Deposit, 100, "initial"⟩, ⟨1, .Withdraw, 40, "to 2"⟩]⟩
    (by decide)

/-- C4: a transfer between existing distinct accounts with positive amount
and sufficient source funds succeeds: the source balance decreases by `v`,
the destination balance increases by `v`, and exactly the two entries
TransferOut(src, v) and TransferIn(dst, v) are appended to the global log
in that order with nothing interleaved. -/
theorem transfer_success (b : Bank α) (src dst : Int) (v : α) (note : String)
    (af ad : Account α)
    (hsrc : lookupA b.a src = some af) (hdst : lookupA b.a dst = some ad)
    (hne : src ≠ dst) (hv : 0 < v) (hbal : v ≤ af.bal) :
    (b.transfer src dst v note).2 = none ∧
    (lookupA (b.transfer src dst v note).1.a src).map Account.bal =
      some (af.bal - v) ∧
    (lookupA (b.transfer src dst v note).1.a dst).map Account.bal =
      some (ad.bal + v) ∧
    (b.transfer src dst v note).1.log = b.log ++
      [⟨src, .TransferOut, v, "to " ++ toString dst⟩,
       ⟨dst, .TransferIn, v, "from " ++ toString src⟩] := by
  have hw : af.withdraw v
      ("to " ++ toString dst ++ (if note ≠ "" then ": " ++ note else "")) =
      .ok { af with
              bal := af.bal - v,
              hist := af.hist ++ [⟨af.id, .Withdraw, v,
                "to " ++ toString dst ++ (if note ≠ "" then ": " ++ note else "")⟩] } :=
    Account.withdraw_eq_ok.mpr ⟨not_le.mpr hv, not_lt.mpr hbal, rfl⟩
  have hdst2 : lookupA (updateA b.a src
      { af with
          bal := af.bal - v,
          hist := af.hist ++ [⟨af.id, .Withdraw, v,
            "to " ++ toString dst ++ (if note ≠ "" then ": " ++ note else "")⟩] })
      dst = some ad := by
    rw [lookupA_updateA, if_neg hne]
    exact hdst
  have hd : ad.deposit v
      ("from " ++ toString src ++ (if note ≠ "" then ": " ++ note else "")) =
      .ok { ad with
              bal := ad.bal + v,
              hist := ad.hist ++ [⟨ad.id, .Deposit, v,
                "from " ++ toString src ++ (if note ≠ "" then ": " ++ note else "")⟩] } :=
    Account.deposit_eq_ok.mpr ⟨not_le.mpr hv, rfl⟩
  unfold Bank.transfer
  simp only [if_neg hne, hsrc, hw, hdst2, hd]
  refine ⟨trivial, ?_, ?_, trivial⟩
  · rw [lookupA_updateA, if_neg (Ne.symm hne), lookupA_updateA, if_pos rfl]
    rfl
  · rw [lookupA_updateA, if_pos rfl]
    rfl

/-- Witness for C4: `transfer(1, 2, 40)` on `bankAB`. -/
theorem transfer_success_witness :
    (bankAB.transfer 1 2 40 "").2 = none ∧
    (lookupA (bankAB.transfer 1 2 40 "").1.a 1).map Account.bal =
      some (100 - 40) ∧
    (lookupA (bankAB.transfer 1 2 40 "").1.a 2).map Account.bal =
      some (0 + 40) ∧
    (bankAB.transfer 1 2 40 "").1.log = bankAB.log ++
      [⟨1, .TransferOut, 40, "to " ++ toString (2 : Int)⟩,
       ⟨2, .TransferIn, 40, "from " ++ toString (1 : Int)⟩] :=
  transfer_success bankAB 1 2 40 ""
    ⟨1, "Alice", 100, [⟨1, .Deposit, 100, "initial"⟩]⟩ ⟨2, "Bob", 0, []⟩
    (by decide) (by decide) (by decide) (by decide) (by decide)

/-- C5: when the last two global-log entries are a matched transfer pair
(TransferOut then TransferIn with equal amounts), a feasible undo withdraws
the amount from the TransferIn account and deposits it back to the
TransferOut account, both appended to the account histories tagged
"undo transfer", and removes exactly those two entries from the global log;
in particular the two balances return to their pre-transfer values. -/
theorem undo_transfer_pair (b : Bank α) (l : List (Tx α)) (out inn : Tx α)
    (accIn accOut : Account α)
    (hlog : b.log = l ++ [out, inn])
    (hout : out.type = .TransferOut) (hinn : inn.type = .TransferIn)
    (hamt : out.amt = inn.amt)
    (hlIn : lookupA b.a inn.acc = some accIn)
    (hlOut : lookupA b.a out.acc = some accOut)
    (hne : inn.acc ≠ out.acc)
    (hv : 0 < inn.amt) (hbal : inn.amt ≤ accIn.bal) :
    b.undo =
      ({ b with
           a := updateA (updateA b.a inn.acc
                  { accIn with
                      bal := accIn.bal - inn.amt,
                      hist := accIn.hist ++
                        [⟨accIn.id, .Withdraw, inn.amt, "undo transfer"⟩] })
                out.acc
                  { accOut with
                      bal := accOut.bal + inn.amt,
                      hist := accOut.hist ++
                        [⟨accOut.id, .Deposit, inn.amt, "undo transfer"⟩] },
           log := l }, none) ∧
    (lookupA b.undo.1.a inn.acc).map Account.bal = some (accIn.bal - inn.amt) ∧
    (lookupA b.undo.1.a out.acc).map Account.bal = some (accOut.bal + inn.amt) := by
  have hrev : b.log.reverse = inn :: out :: l.reverse := by
    rw [hlog]
    simp
  have heq : b.undo =
      ({ b with
           a := updateA (updateA b.a inn.acc
                  { accIn with
                      bal := accIn.bal - inn.amt,
                      hist := accIn.hist ++
                        [⟨accIn.id, .Withdraw, inn.amt, "undo transfer"⟩] })
                out.acc
                  { accOut with
                      bal := accOut.bal + inn.amt,
                      hist := accOut.hist ++
                        [⟨accOut.id, .Deposit, inn.amt, "undo transfer"⟩] },
           log := l }, none) := by
    unfold Bank.undo
    rw [hrev]
    dsimp only
    rw [if_pos ⟨hinn, hout, by rw [hamt]⟩,
      Bank.undoPair_success hlIn hlOut hne hv hbal, List.reverse_reverse]
  refine ⟨heq, ?_, ?_⟩
  · rw [heq]
    dsimp only
    rw [lookupA_updateA, if_neg (Ne.symm hne), lookupA_updateA, if_pos rfl]
    rfl
  · rw [heq]
    dsimp only
    rw [lookupA_updateA, if_pos rfl]
    rfl

/-- Witness for C5: undoing the transfer pair of `bankAB40` restores the
pre-transfer balances 100 and 0 and leaves only the initial-deposit log
entry. -/
theorem undo_transfer_pair_witness :
    bankAB40.undo =
      ({ bankAB40 with
           a := updateA (updateA bankAB40.a 2
                  ⟨2, "Bob", 0 + 40 - 40,
                    [⟨2, .Deposit, 40, "from 1"⟩,
                     ⟨2, .Withdraw, 40, "undo transfer"⟩]⟩)
                1
                  ⟨1, "Alice", 100 - 40 + 40,
                    [⟨1, .Deposit, 100, "initial"⟩,
                     ⟨1, .Withdraw, 40, "to 2"⟩,
                     ⟨1, .Deposit, 40, "undo transfer"⟩]⟩,
           log := [⟨1, .Deposit, 100, "initial"⟩] }, none) ∧
    (lookupA bankAB40.undo.1.a 2).map Account.bal = some (0 + 40 - 40) ∧
    (lookupA bankAB40.undo.1.a 1).map Account.bal = some (100 - 40 + 40) :=
  undo_transfer_pair bankAB40 [⟨1, .Deposit, 100, "initial"⟩]
    ⟨1, .TransferOut, 40, "to 2"⟩ ⟨2, .TransferIn, 40, "from 1"⟩
    ⟨2, "Bob", 0 + 40, [⟨2, .Deposit, 40, "from 1"⟩]⟩
    ⟨1, "Alice", 100 - 40,
      [⟨1, .Deposit, 100, "initial"⟩, ⟨1, .Withdraw, 40, "to 2"⟩]⟩
    (by decide) (by decide) (by decide) (by decide) (by decide) (by decide)
    (by decide) (by decide) (by decide)

/-- C6: in a reachable state whose log tail is a matched transfer pair, a
failing undo performs no mutation at all: no log entry is removed and no
balance or history changes (in a reachable state only the withdrawal leg
can fail, and it fails before mutating anything). -/
theorem undo_pair_failure_no_mutation (b b2 : Bank α) (msg : String)
    (l : List (Tx α)) (out inn : Tx α)
    (hreach : Reachable b)
    (hlog : b.log = l ++ [out, inn])
    (hout : out.type = .TransferOut) (hinn : inn.type = .TransferIn)
    (hamt : out.amt = inn.amt)
    (hres : b.undo = (b2, some msg)) :
    b2 = b := by
  have hOk := Bank.logOk_reachable hreach
  obtain ⟨hvIn, hsIn⟩ := hOk inn (by rw [hlog]; simp)
  obtain ⟨hvOut, hsOut⟩ := hOk out (by rw [hlog]; simp)
  have hrev : b.log.reverse = inn :: out :: l.reverse := by
    rw [hlog]
    simp
  unfold Bank.undo at hres
  rw [hrev] at hres
  dsimp only at hres
  rw [if_pos ⟨hinn, hout, by rw [hamt]⟩] at hres
  unfold Bank.undoPair at hres
  split at hres
  · rename_i hnone
    rw [hnone] at hsIn
    simp at hsIn
  · rename_i accIn hl
    split at hres
    · cases hres
      rfl
    · rename_i accIn2 hw
      split at hres
      · rename_i hnone
        have hs2 := isSome_lookupA_updateA b.a inn.acc out.acc accIn2 hsOut
        rw [hnone] at hs2
        simp at hs2
      · rename_i accOut hl2
        split at hres
        · rename_i e hd
          unfold Account.deposit at hd
          rw [if_neg (not_le.mpr hvIn)] at hd
          cases hd
        · simp at hres

/-- Witness for C6: in `bankAB40bad` (reached through the partially applied
`transfer(2, 3, 40)`) the log tail is still the matched pair, account 2 has
no funds, and the failing undo leaves the bank unchanged. -/
theorem undo_pair_failure_no_mutation_witness :
    bankAB40bad.undo.1 = bankAB40bad :=
  undo_pair_failure_no_mutation bankAB40bad bankAB40bad.undo.1 "insufficient"
    [⟨1, .Deposit, 100, "initial"⟩]
    ⟨1, .TransferOut, 40, "to 2"⟩ ⟨2, .TransferIn, 40, "from 1"⟩
    (Reachable.step (Op.transfer 2 3 40 "")
      (Reachable.step (Op.transfer 1 2 40 "")
        (Reachable.step (Op.create "Bob" 0)
          (Reachable.step (Op.create "Alice" 100) Reachable.empty))))
    (by decide) (by decide) (by decide) (by decide) (by decide)

/-- C7: when the log is non-empty and its tail is not a matched transfer
pair, undo reverses exactly the last entry: a feasible undo withdraws the
amount (tagged "undo") for a Deposit/TransferIn entry and deposits it
(tagged "undo") for a Withdraw/TransferOut entry, removing exactly that one
entry from the global log. -/
theorem undo_single_entry (b : Bank α) (l : List (Tx α)) (tx : Tx α)
    (acct : Account α)
    (hlog : b.log = l ++ [tx])
    (hpair : transferPairTail b.log = false)
    (hl : lookupA b.a tx.acc = some acct)
    (hv : 0 < tx.amt)
    (hbal : tx.type = .Deposit ∨ tx.type = .TransferIn → tx.amt ≤ acct.bal) :
    b.undo = ({ b with
                  a := updateA b.a tx.acc (undoSingle tx acct),
                  log := l }, none) := by
  have hrev : b.log.reverse = tx :: l.reverse := by
    rw [hlog]
    simp
  unfold Bank.undo
  rw [hrev]
  cases hlr : l.reverse with
  | nil =>
    have h0 : l = [] := by
      rw [← List.reverse_reverse l, hlr]
      rfl
    subst h0
    dsimp only
    exact Bank.undoLast_success hl hv hbal
  | cons prev rest2 =>
    have hrev2 : b.log.reverse = tx :: prev :: rest2 := by rw [hrev, hlr]
    have hcond : ¬(tx.type = TxType.TransferIn ∧ prev.type = TxType.TransferOut ∧
        prev.amt = tx.amt) := by
      intro hand
      obtain ⟨h1, h2, h3⟩ := hand
      have hpt : transferPairTail b.log =
          (decide (tx.type = TxType.TransferIn) &&
           decide (prev.type = TxType.TransferOut) &&
           decide (prev.amt = tx.amt)) := by
        unfold transferPairTail
        rw [hrev2]
      rw [hpt] at hpair
      simp [h1, h2, h3] at hpair
    dsimp only
    rw [if_neg hcond, Bank.undoLast_success hl hv hbal, ← hlr,
      List.reverse_reverse]

/-- Witness for C7: undoing the single initial-deposit entry of `bankA5`
withdraws 5 (tagged "undo") and empties the global log. -/
theorem undo_single_entry_witness :
    bankA5.undo =
      ({ bankA5 with
           a := updateA bankA5.a 1
             (undoSingle ⟨1, .Deposit, 5, "initial"⟩
               ⟨1, "A", 5, [⟨1, .Deposit, 5, "initial"⟩]⟩),
           log := [] }, none) :=
  undo_single_entry bankA5 [] ⟨1, .Deposit, 5, "initial"⟩
    ⟨1, "A", 5, [⟨1, .Deposit, 5, "initial"⟩]⟩
    (by decide) (by decide) (by decide) (by decide) (by decide)

/-- C8: every successful undo only removes the reversed entry (or pair)
from the tail of the global log and appends compensating entries to the
affected account histories: nothing is appended to the global log,
per-account histories only grow, and exactly one history entry is added per
removed log entry — so undo is not itself undoable and repeated undo calls
walk backwards through the log. -/
theorem undo_success_frame (b b2 : Bank α) (hres : b.undo = (b2, none)) :
    (b2.log = b.log.dropLast ∨ b2.log = b.log.dropLast.dropLast) ∧
    histExtends b.a b2.a ∧
    b2.histCount + b2.log.length = b.histCount + b.log.length := by
  unfold Bank.undo at hres
  split at hres
  · simp at hres
  · rename_i last hrev
    have hb : b.log = [last] := by
      rw [← List.reverse_reverse b.log, hrev]
      rfl
    obtain ⟨hlog, hext, hcount⟩ := Bank.undoLast_frame hres
    refine ⟨Or.inl ?_, hext, ?_⟩
    · rw [hlog, hb]
      rfl
    · rw [hlog, hb, hcount]
      simp
  · rename_i last prev rest2 hrev
    have hb : b.log = rest2.reverse ++ [prev, last] := by
      rw [← List.reverse_reverse b.log, hrev]
      simp
    have hsplit : rest2.reverse ++ [prev, last] =
        (rest2.reverse ++ [prev]) ++ [last] := by
      simp
    split at hres
    · obtain ⟨hlog, hext, hcount⟩ := Bank.undoPair_frame hres
      refine ⟨Or.inr ?_, hext, ?_⟩
      · rw [hlog, hb, hsplit, List.dropLast_concat, List.dropLast_concat]
      · rw [hlog, hb, hcount]
        simp
        omega
    · obtain ⟨hlog, hext, hcount⟩ := Bank.undoLast_frame hres
      refine ⟨Or.inl ?_, hext, ?_⟩
      · rw [hlog, hb, hsplit, List.dropLast_concat]
        simp
      · rw [hlog, hb, hcount]
        simp
        omega

/-- Witness for C8 at the successful undo of `bankA5`. -/
theorem undo_success_frame_witness :
    (bankA5.undo.1.log = bankA5.log.dropLast ∨
     bankA5.undo.1.log = bankA5.log.dropLast.dropLast) ∧
    histExtends bankA5.a bankA5.undo.1.a ∧
    bankA5.undo.1.histCount + bankA5.undo.1.log.length =
      bankA5.histCount + bankA5.log.length :=
  undo_success_frame bankA5 bankA5.undo.1 (by decide)

/-- C9: in every reachable state every global-log entry has a strictly
positive amount and names an account present in the account map, and hence
a deposit of that amount to that account — the compensating deposit leg of
an undo reversal — always succeeds. -/
theorem log_entries_valid {b : Bank α} (hreach : Reachable b) :
    ∀ tx ∈ b.log, 0 < tx.amt ∧ (lookupA b.a tx.acc).isSome = true ∧
      ∀ acct note, lookupA b.a tx.acc = some acct →
        acct.deposit tx.amt note =
          .ok { acct with
                  bal := acct.bal + tx.amt,
                  hist := acct.hist ++ [⟨acct.id, .Deposit, tx.amt, note⟩] } := by
  intro tx htx
  obtain ⟨h1, h2⟩ := Bank.logOk_reachable hreach tx htx
  exact ⟨h1, h2, fun acct note _ =>
    Account.deposit_eq_ok.mpr ⟨not_le.mpr h1, rfl⟩⟩

/-- Witness for C9 at the TransferIn entry of the reachable state
`bankAB40`: its amount is positive, its account is present, and the
compensating deposit of that amount to that account succeeds. -/
theorem log_entries_valid_witness :
    (0 : ℤ) < 40 ∧ (lookupA bankAB40.a 2).isSome = true ∧
    Account.deposit
        (⟨2, "Bob", 0 + 40, [⟨2, .Deposit, 40, "from 1"⟩]⟩ : Account ℤ)
        40 "undo transfer" =
      .ok ⟨2, "Bob", 0 + 40 + 40,
        [⟨2, .Deposit, 40, "from 1"⟩, ⟨2, .Deposit, 40, "undo transfer"⟩]⟩ :=
  have h := log_entries_valid
    (Reachable.step (Op.transfer 1 2 40 "")
      (Reachable.step (Op.create "Bob" 0)
        (Reachable.step (Op.create "Alice" 100) Reachable.empty)))
    ⟨2, .TransferIn, 40, "from 1"⟩ (by decide)
  ⟨h.1, h.2.1,
    h.2.2 (⟨2, "Bob", 0 + 40, [⟨2, .Deposit, 40, "from 1"⟩]⟩ : Account ℤ)
      "undo transfer" (by decide)⟩

/-- C10: undo on an empty global log fails with the NothingToUndo error
("nothing to undo") and performs no mutation: the bank is returned exactly
as it was. -/
theorem undo_empty_log_no_mutation (b : Bank α) (h : b.log = []) :
    b.undo = (b, some "nothing to undo") := by
  unfold Bank.undo
  rw [h]
  rfl

/-- Witness for C10 at the fresh bank. -/
theorem undo_empty_log_no_mutation_witness :
    (Bank.empty : Bank ℤ).undo = (Bank.empty, some "nothing to undo") :=
  undo_empty_log_no_mutation Bank.empty rfl

end MiniBank
